import Mathlib

/-!
Shallow embedding of the apply-patch engine (the V4A patch format parser,
context matcher, commit builder and applier) from the repository's
TypeScript source.  Strings are modelled by Lean's String (a wrapper
around a list of characters); JavaScript string primitives are embedded
as explicit functions on the character list.  The injected filesystem
callbacks are modelled by returning the list of write/remove operations
the engine would perform.
-/

namespace ApplyPatch

/-! ## JavaScript string primitives -/

/-- The JavaScript whitespace set used by String.prototype.trim and friends. -/
def jsIsWS (c : Char) : Bool :=
  ([' ', '\t', '\n', '\x0B', '\x0C', '\r', ' ', ' ',
    ' ', ' ', ' ', ' ', ' ', ' ', ' ',
    ' ', ' ', ' ', ' ', ' ', ' ', ' ',
    ' ', '　', '﻿'] : List Char).contains c

/-- Embedding of JavaScript s.startsWith(p). -/
def jsStartsWith (s p : String) : Bool :=
  p.data.isPrefixOf s.data

/-- Embedding of JavaScript s.trimEnd(). -/
def jsTrimEnd (s : String) : String :=
  ⟨(s.data.reverse.dropWhile jsIsWS).reverse⟩

/-- Embedding of JavaScript s.trimStart(). -/
def jsTrimStart (s : String) : String :=
  ⟨s.data.dropWhile jsIsWS⟩

/-- Embedding of JavaScript s.trim(). -/
def jsTrim (s : String) : String :=
  jsTrimEnd (jsTrimStart s)

/-- Embedding of JavaScript s.slice(n) for a non-negative n. -/
def strDrop (s : String) (n : Nat) : String :=
  ⟨s.data.drop n⟩

/-- First character of a string, if any (JavaScript s[0]). -/
def strHead (s : String) : Option Char :=
  s.data.head?

/-- Splitter for s.split(given a separator character); splitting the empty
string yields one empty field, exactly as in JavaScript. -/
def splitCharAux (sep : Char) : List Char → List Char → List String
  | [], acc => [⟨acc.reverse⟩]
  | c :: rest, acc =>
    if c = sep then ⟨acc.reverse⟩ :: splitCharAux sep rest []
    else splitCharAux sep rest (c :: acc)

/-- Embedding of JavaScript text.split(the newline character). -/
def jsSplitNL (s : String) : List String :=
  splitCharAux '\n' s.data []

/-- Embedding of Array.prototype.join with a newline separator. -/
def joinNL : List String → String
  | [] => ""
  | [s] => s
  | s :: rest => s ++ "\n" ++ joinNL rest

/-- Embedding of text.replace of CRLF by LF (the source regex matches an
optional carriage return followed by a newline; a lone carriage return is
left alone). -/
def normNLAux : List Char → List Char
  | '\r' :: '\n' :: rest => '\n' :: normNLAux rest
  | c :: rest => c :: normNLAux rest
  | [] => []

/-- Newline normalisation applied by text_to_patch before splitting. -/
def normNL (s : String) : String :=
  ⟨normNLAux s.data⟩

/-- Line i of the patch line array.  The source indexes the array directly;
every read is either bounds-checked first or compared against a non-empty
literal (for which the out-of-bounds undefined compares unequal), so the
empty-string default is observation-equivalent. -/
def getLine (lines : List String) (i : Nat) : String :=
  lines.getD i ""

/-! ## Patch format marker strings

Modelled from the spec: the marker constants are imported by the source
from src/parse-apply-patch, a module that is not part of the provided
sources; the values below follow the patch grammar of the specification
(section 6.1). -/

/-- Modelled from the spec: the Begin Patch marker (with the newline that
process_patch requires after it). -/
def BEGIN_PATCH_MARK : String := "*** Begin Patch\n"

/-- Modelled from the spec: the End Patch marker. -/
def END_PATCH_MARK : String := "\n*** End Patch"

/-- Modelled from the spec: the Add File directive marker. -/
def ADD_FILE_MARK : String := "*** Add File: "

/-- Modelled from the spec: the Delete File directive marker. -/
def DELETE_FILE_MARK : String := "*** Delete File: "

/-- Modelled from the spec: the Update File directive marker. -/
def UPDATE_FILE_MARK : String := "*** Update File: "

/-- Modelled from the spec: the Move to directive marker. -/
def MOVE_FILE_TO_MARK : String := "*** Move to: "

/-- Modelled from the spec: the End of File marker. -/
def END_OF_FILE_MARK : String := "*** End of File"

/-- Modelled from the spec: the leading byte of an inserted hunk line. -/
def HUNK_ADD_MARK : String := "+"

/-! ## Data model -/

/-- The closed set of file action kinds. -/
inductive ActionType
  | add
  | delete
  | update
deriving DecidableEq

/-- One contiguous edit inside an Update action. -/
structure Chunk where
  orig_index : Nat
  del_lines : List String
  ins_lines : List String
deriving DecidableEq

/-- A parsed file action. -/
structure PatchAction where
  type : ActionType
  new_file : Option String := none
  chunks : List Chunk := []
  move_path : Option String := none
deriving DecidableEq

/-- A parsed patch: an insertion-ordered map from path to action. -/
structure Patch where
  actions : List (String × PatchAction) := []
deriving DecidableEq

/-- A commit-level record for one file. -/
structure FileChange where
  type : ActionType
  old_content : Option String := none
  new_content : Option String := none
  move_path : Option String := none
deriving DecidableEq

/-- A commit: an insertion-ordered map from path to FileChange. -/
structure Commit where
  changes : List (String × FileChange) := []
deriving DecidableEq

/-- The error family of the embedding.  Most constructors mirror the
distinct DiffError sites of the source; outOfFuel models the source
looping forever on certain degenerate inputs, and outOfScopeRead models
the abort at the chunk-push sites of peek_next_section, whose hunk-counts
consistency check reads expectedDel and expectedIns, names that are only
declared inside Parser.parse_update_file and are not in scope there
(TypeScript rejects the file; as JavaScript the read throws a
ReferenceError before the chunk is pushed). -/
inductive DiffError
  | indexOutOfRange (i n : Nat)
  | duplicatePath (p : String)
  | missingFile (p : String)
  | fileExists (p : String)
  | unknownLine (s : String)
  | missingEndPatch
  | invalidLineInUpdate (s : String)
  | invalidHunkLine (s : String)
  | invalidContext (i : Nat) (ctx : List String)
  | invalidEOFContext (i : Nat) (ctx : List String)
  | invalidAddLine (s : String)
  | notUpdateAction (p : String)
  | chunkOutOfRange (p : String)
  | chunkOrderViolation (p : String)
  | invalidPatchText (reasonCode : Nat)
  | patchMustStartWithBegin
  | absolutePathRejected
  | fileNotFound (p : String)
  | outOfFuel
  | outOfScopeRead
deriving DecidableEq

/-- An operation performed through the injected filesystem callbacks. -/
inductive FsOp
  | write (p c : String)
  | remove (p : String)
deriving DecidableEq

/-! ## Unicode canonicalisation (find_context_core's canon) -/

/-- The punctuation look-alike table of find_context_core: hyphen/dash
variants, double-quote variants, single-quote variants and space variants
are folded to their ASCII representative; everything else passes through. -/
def punctEquiv (c : Char) : Char :=
  if c = '‐' ∨ c = '‑' ∨ c = '‒' ∨ c = '–' ∨
     c = '—' ∨ c = '―' ∨ c = '−' then '-'
  else if c = '“' ∨ c = '”' ∨ c = '„' ∨ c = '‟' ∨
     c = '«' ∨ c = '»' then '"'
  else if c = '‘' ∨ c = '’' ∨ c = '‚' ∨ c = '‛' then '\''
  else if c = ' ' ∨ c = ' ' ∨ c = ' ' ∨ c = ' ' ∨
     c = ' ' ∨ c = ' ' ∨ c = ' ' ∨ c = ' ' ∨
     c = ' ' ∨ c = ' ' ∨ c = ' ' ∨ c = ' ' ∨
     c = '　' then ' '
  else c

/-- The canonicalisation of find_context_core, parametric in the Unicode
normalisation applied first: normalise, then fold punctuation
look-alikes code point by code point. -/
def canonWith (nfc : String → String) (s : String) : String :=
  ⟨(nfc s).data.map punctEquiv⟩

/-- Modelled from the spec: the source first calls the JavaScript built-in
String.prototype.normalize with argument NFC (Unicode canonical
composition), a platform function whose implementation is not part of
this repository.  The general theorems about the matcher are therefore
stated for an arbitrary normalisation function, so nothing proved there
depends on what NFC does; for running the pipeline on concrete inputs
(all of which are ASCII, hence NFC-normal, where normalisation is the
identity) the executable instance below models it as the identity map. -/
def nfcNormalize (s : String) : String := s

/-- The canonicalisation used by rung 4 of the executable matcher and by
the at-sign anchor search of parse_update_file (the two source copies are
identical), at the modelled normalisation. -/
def canon : String → String :=
  canonWith nfcNormalize

/-! ## Context matcher -/

/-- Whether the context matches the file at position i under an
element-level transform (the inner loop of seekSequence). -/
def matchAt (tr : String → String) (lines ctx : List String) (i : Nat) : Bool :=
  ((lines.drop i).take ctx.length).map tr == ctx.map tr

/-- The scanning loop of seekSequence: first position i in the window, -1
if the window is exhausted.  Fuel counts the remaining candidates. -/
def seekAux (tr : String → String) (lines ctx : List String) (maxIdx : Nat) :
    Nat → Nat → Int
  | 0, _ => -1
  | fuel + 1, i =>
    if maxIdx < i then -1
    else if matchAt tr lines ctx i then (i : Int)
    else seekAux tr lines ctx maxIdx fuel (i + 1)

/-- Embedding of seekSequence: scan positions start..maxIdx inclusive. -/
def seekSequence (tr : String → String) (lines ctx : List String)
    (start maxIdx : Nat) : Int :=
  seekAux tr lines ctx maxIdx (maxIdx + 1 - start) start

/-- Embedding of find_context_core, parametric in the Unicode
normalisation that rung 4 folds through: the four-rung equivalence
ladder. -/
def find_context_coreWith (nfc : String → String) (lines ctx : List String)
    (start : Nat) : Int × Nat :=
  if ctx.length = 0 then ((start : Int), 0)
  else if lines.length < ctx.length then (-1, 0)
  else
    let maxIdx := lines.length - ctx.length
    let i1 := seekSequence id lines ctx start maxIdx
    if i1 ≠ -1 then (i1, 0)
    else
      let i2 := seekSequence jsTrimEnd lines ctx start maxIdx
      if i2 ≠ -1 then (i2, 1)
      else
        let i3 := seekSequence jsTrim lines ctx start maxIdx
        if i3 ≠ -1 then (i3, 100)
        else
          let i4 := seekSequence (canonWith nfc) lines ctx start maxIdx
          if i4 ≠ -1 then (i4, 1000)
          else (-1, 0)

/-- The source's find_context_core, at the modelled normalisation: the
executable instance used by the rest of the pipeline. -/
def find_context_core : List String → List String → Nat → Int × Nat :=
  find_context_coreWith nfcNormalize

/-- Number of positions j at which lines and ctx agree exactly when ctx is
laid over the file at position i (the matchCount loop of the fallback). -/
def countEqAux (lines : List String) : List String → Nat → Nat
  | [], _ => 0
  | c :: rest, k =>
    (if getLine lines k = c then 1 else 0) + countEqAux lines rest (k + 1)

/-- The plus-or-minus-two-line fallback scan of find_context.  The source
accepts a shift when matchCount / context.length is at least 0.8 under
JavaScript float division; for the line counts that arise this is exactly
the rational comparison 4 * length <= 5 * matchCount, which is how it is
embedded. -/
def fbFind (lines ctx : List String) (start : Nat) : List Int → Option Int
  | [] => none
  | sh :: rest =>
    let i : Int := (start : Int) + sh
    let maxI : Int := (lines.length : Int) - (ctx.length : Int)
    if i < 0 ∨ maxI < i then fbFind lines ctx start rest
    else
      let mc := countEqAux lines ctx i.toNat
      if 4 * ctx.length ≤ 5 * mc then some i
      else fbFind lines ctx start rest

/-- Embedding of find_context: EOF anchoring plus the fallback scan. -/
def find_context (lines ctx : List String) (start : Nat) (eof : Bool) :
    Int × Nat :=
  let r :=
    if eof then
      let anchored :=
        if ctx.length ≤ lines.length then
          find_context_core lines ctx (lines.length - ctx.length)
        else (-1, 0)
      if anchored.1 ≠ -1 then anchored
      else
        let r2 := find_context_core lines ctx start
        (r2.1, r2.2 + 10000)
    else find_context_core lines ctx start
  if r.1 = -1 ∧ 0 < ctx.length then
    match fbFind lines ctx start [-2, -1, 0, 1, 2] with
    | some i => (i, r.2 + 50000)
    | none => (-1, r.2)
  else r

/-! ## Section peeker (peek_next_section) -/

/-- The three modes of the hunk-body state machine. -/
inductive PMode
  | keep
  | add
  | del
deriving DecidableEq

/-- The prefixes at which the peeker's loop breaks (each taken through the
same trim the source applies inside the some-callback). -/
def peekBreakMarks : List String :=
  ["@@", jsTrim END_PATCH_MARK, jsTrim UPDATE_FILE_MARK,
   jsTrim DELETE_FILE_MARK, jsTrim ADD_FILE_MARK, jsTrim END_OF_FILE_MARK]

/-- One chunk-push site of peek_next_section.  When deletions or
insertions are pending, the source first runs a hunk-counts consistency
check that reads expectedDel and expectedIns; those names are declared
inside Parser.parse_update_file and are not in scope in the module-level
peek_next_section, so TypeScript rejects the file and, run as plain
JavaScript, evaluating the check throws a ReferenceError before the chunk
is pushed.  The embedding models that abort faithfully: a pending
non-empty chunk is the out-of-scope-read error; only the empty case,
where the source skips check and push entirely, succeeds. -/
def pushChunk (del ins : List String) (chunks : List Chunk) :
    Except DiffError (List Chunk) :=
  if del.length + ins.length = 0 then .ok chunks
  else .error .outOfScopeRead

/-- The loop of peek_next_section over the remaining lines.  Arguments
after the line list: current mode, old (context plus deletions), pending
deletions, pending insertions, chunks so far.  Returns old, the chunks,
the number of lines consumed, and the end-of-file flag; every chunk-push
site goes through the fallible pushChunk. -/
def peekAux : List String → PMode → List String → List String → List String →
    List Chunk → Except DiffError (List String × List Chunk × Nat × Bool)
  | [], _, old, del, ins, chunks =>
    match pushChunk del ins chunks with
    | .error e => .error e
    | .ok chunks => .ok (old, chunks, 0, false)
  | s :: rest, mode, old, del, ins, chunks =>
    if peekBreakMarks.any (fun p => jsStartsWith s p) then
      match pushChunk del ins chunks with
      | .error e => .error e
      | .ok chunks =>
        if s = END_OF_FILE_MARK then .ok (old, chunks, 1, true)
        else .ok (old, chunks, 0, false)
    else if s = "***" then
      match pushChunk del ins chunks with
      | .error e => .error e
      | .ok chunks => .ok (old, chunks, 0, false)
    else if jsStartsWith s "***" then
      .error (.invalidHunkLine s)
    else
      let m : PMode :=
        if strHead s = some '+' then .add
        else if strHead s = some '-' then .del
        else PMode.keep
      let line : String :=
        if strHead s = some '+' ∨ strHead s = some '-' ∨ strHead s = some ' '
        then strDrop s 1 else s
      match (if m = PMode.keep ∧ mode ≠ PMode.keep then
          match pushChunk del ins chunks with
          | .error e => .error e
          | .ok cs => .ok ([], [], cs)
        else .ok (del, ins, chunks) :
          Except DiffError (List String × List String × List Chunk)) with
      | .error e => .error e
      | .ok (del, ins, chunks) =>
        match m with
        | .del =>
          match peekAux rest m (old ++ [line]) (del ++ [line]) ins chunks with
          | .ok (o, c, n, e) => .ok (o, c, n + 1, e)
          | .error e => .error e
        | .add =>
          match peekAux rest m old del (ins ++ [line]) chunks with
          | .ok (o, c, n, e) => .ok (o, c, n + 1, e)
          | .error e => .error e
        | .keep =>
          match peekAux rest m (old ++ [line]) del ins chunks with
          | .ok (o, c, n, e) => .ok (o, c, n + 1, e)
          | .error e => .error e

/-- Embedding of peek_next_section: peek from an absolute index, returning
the expected context, the raw chunks, the index just past the consumed
section, and the end-of-file flag. -/
def peek_next_section (lines : List String) (initialIndex : Nat) :
    Except DiffError (List String × List Chunk × Nat × Bool) :=
  match peekAux (lines.drop initialIndex) PMode.keep [] [] [] [] with
  | .ok (o, c, n, e) => .ok (o, c, initialIndex + n, e)
  | .error e => .error e

/-! ## Parser -/

/-- Embedding of Parser.is_done: index beyond the lines, or the current
line starts with one of the given markers (each marker trimmed). -/
def isDoneAt (lines : List String) (i : Nat) (marks : List String) : Bool :=
  lines.length ≤ i ∨ marks.any (fun p => jsStartsWith (getLine lines i) (jsTrim p))

/-- Embedding of Parser.read_str: if the current line starts with the
marker, consume the line and return the remainder; otherwise return the
empty string without advancing.  Reading past the end is a DiffError. -/
def readStr (lines : List String) (i : Nat) (pre : String) :
    Except DiffError (String × Nat) :=
  if lines.length ≤ i then .error (.indexOutOfRange i lines.length)
  else if jsStartsWith (getLine lines i) pre then
    .ok (strDrop (getLine lines i) pre.length, i + 1)
  else .ok ("", i)

/-- First index at or after i0 whose line is canon-equal to the target
(the exact-equality at-sign anchor scan). -/
def findCanonFrom (fileLines : List String) (i0 : Nat) (target : String) :
    Option Nat :=
  ((fileLines.drop i0).findIdx? (fun s => canon s == canon target)).map (· + i0)

/-- First index at or after i0 whose trimmed line is canon-equal to the
trimmed target (the tolerant at-sign anchor scan). -/
def findCanonTrimFrom (fileLines : List String) (i0 : Nat) (target : String) :
    Option Nat :=
  ((fileLines.drop i0).findIdx?
    (fun s => canon (jsTrim s) == canon (jsTrim target))).map (· + i0)

/-- The at-sign anchor adjustment of parse_update_file: seek the anchor
text in the original file beyond the cursor (first exactly, then trimmed,
each skipped when an equal line already occurs before the cursor); on a
trimmed-only hit the fuzz counter is incremented.  Returns the new file
cursor and fuzz. -/
def anchorAdjust (fileLines : List String) (fIdx : Nat) (defStr : String)
    (fuzz : Nat) : Nat × Nat :=
  let tryTrim : Nat × Nat :=
    if ¬ (fileLines.take fIdx).any
        (fun s => canon (jsTrim s) == canon (jsTrim defStr)) then
      match findCanonTrimFrom fileLines fIdx defStr with
      | some i => (i + 1, fuzz + 1)
      | none => (fIdx, fuzz)
    else (fIdx, fuzz)
  if ¬ (fileLines.take fIdx).any (fun s => canon s == canon defStr) then
    match findCanonFrom fileLines fIdx defStr with
    | some i => (i + 1, fuzz)
    | none => tryTrim
  else tryTrim

/-- The markers at which the update-file loop stops. -/
def updDoneMarks : List String :=
  [END_PATCH_MARK, UPDATE_FILE_MARK, DELETE_FILE_MARK, ADD_FILE_MARK,
   END_OF_FILE_MARK]

/-- Resolution of one peeked section against the original file: locate the
context from the current file cursor; a failed match is the
invalid-context (or invalid-EOF-context) DiffError, a successful one
rebases every chunk by the matched origin.  Returns the patch-line index
just past the section, the new file cursor, the added fuzz, and the
rebased chunks. -/
def updResolve (fileLines : List String) (fIdx : Nat)
    (sec : List String × List Chunk × Nat × Bool) :
    Except DiffError (Nat × Nat × Nat × List Chunk) :=
  let (ctx, chs, endIdx, eof) := sec
  let (ni, f) := find_context fileLines ctx fIdx eof
  if ni = -1 then
    if eof then .error (.invalidEOFContext fIdx ctx)
    else .error (.invalidContext fIdx ctx)
  else
    .ok (endIdx, ni.toNat + ctx.length, f,
         chs.map (fun c => { c with orig_index := c.orig_index + ni.toNat }))

/-- One iteration of the parse_update_file loop: optional hunk header,
anchor adjustment, section peek, context resolution.  Returns the new
patch-line index, new file cursor, new fuzz, and the chunks produced. -/
def updIter (lines fileLines : List String) (tIdx fIdx fuzz : Nat) :
    Except DiffError (Nat × Nat × Nat × List Chunk) := do
  let (defStr, t1) ← readStr lines tIdx "@@ "
  let (sectionStr, t2) :=
    if defStr = "" ∧ getLine lines t1 = "@@" then ("@@", t1 + 1)
    else ("", t1)
  if ¬ (defStr ≠ "" ∨ sectionStr ≠ "" ∨ fIdx = 0) then
    .error (.invalidLineInUpdate (getLine lines t2))
  else
    let (fIdx1, fuzz1) :=
      if jsTrim defStr ≠ "" then anchorAdjust fileLines fIdx defStr fuzz
      else (fIdx, fuzz)
    let sec ← peek_next_section lines t2
    match updResolve fileLines fIdx1 sec with
    | .error e => .error e
    | .ok (endIdx, fIdx2, f, chs) => .ok (endIdx, fIdx2, fuzz1 + f, chs)

/-- The loop of parse_update_file.  The fuel only models the source's
potential nontermination on degenerate inputs (a patch-line cursor that
stops advancing loops forever in the source); every terminating source run
fits in fuel lines.length + 1 because each productive iteration advances
the patch-line cursor. -/
def updLoop (lines fileLines : List String) :
    Nat → Nat → Nat → Nat → List Chunk →
    Except DiffError (Nat × Nat × List Chunk)
  | 0, _, _, _, _ => .error .outOfFuel
  | fuel + 1, tIdx, fIdx, fuzz, acc =>
    if isDoneAt lines tIdx updDoneMarks then .ok (tIdx, fuzz, acc)
    else
      match updIter lines fileLines tIdx fIdx fuzz with
      | .error e => .error e
      | .ok (t', f', fz', chs) => updLoop lines fileLines fuel t' f' fz' (acc ++ chs)

/-- Embedding of Parser.parse_update_file (minus the anchor/section walk
already factored into updIter): runs the loop from file cursor 0 with no
accumulated fuzz. -/
def parse_update_file (lines : List String) (text : String) (tIdx : Nat) :
    Except DiffError (Nat × Nat × List Chunk) :=
  updLoop lines (jsSplitNL text) (lines.length + 1) tIdx 0 0 []

/-- The markers at which the add-file loop stops. -/
def addDoneMarks : List String :=
  [END_PATCH_MARK, UPDATE_FILE_MARK, DELETE_FILE_MARK, ADD_FILE_MARK]

/-- The loop of parse_add_file: every consumed line must begin with the
insert marker; its tail is collected. -/
def addLoop (lines : List String) :
    Nat → Nat → List String → Except DiffError (Nat × List String)
  | 0, _, _ => .error .outOfFuel
  | fuel + 1, tIdx, acc =>
    if isDoneAt lines tIdx addDoneMarks then .ok (tIdx, acc)
    else
      match readStr lines tIdx "" with
      | .error e => .error e
      | .ok (s, t') =>
        if ¬ jsStartsWith s HUNK_ADD_MARK then .error (.invalidAddLine s)
        else addLoop lines fuel t' (acc ++ [strDrop s 1])

/-- The document-level loop of Parser.parse: Update, Delete and Add
directives tried in order, with the duplicate/missing/existing checks of
the source, accumulating the action map in insertion order. -/
def parseLoop (lines : List String) (files : List (String × String)) :
    Nat → Nat → List (String × PatchAction) → Nat →
    Except DiffError (Nat × List (String × PatchAction) × Nat)
  | 0, _, _, _ => .error .outOfFuel
  | fuel + 1, tIdx, actions, fuzz =>
    if isDoneAt lines tIdx [END_PATCH_MARK] then .ok (tIdx, actions, fuzz)
    else
      match readStr lines tIdx UPDATE_FILE_MARK with
      | .error e => .error e
      | .ok (p1, t1) =>
        if p1 ≠ "" then
          if (actions.lookup p1).isSome then .error (.duplicatePath p1)
          else
            match readStr lines t1 MOVE_FILE_TO_MARK with
            | .error e => .error e
            | .ok (moveTo, t2) =>
              if (files.lookup p1).isNone then .error (.missingFile p1)
              else
                match parse_update_file lines ((files.lookup p1).getD "") t2 with
                | .error e => .error e
                | .ok (tEnd, afuzz, chs) =>
                  let act : PatchAction :=
                    { type := .update, chunks := chs,
                      move_path := if moveTo = "" then none else some moveTo }
                  parseLoop lines files fuel tEnd
                    (actions ++ [(p1, act)]) (fuzz + afuzz)
        else
          match readStr lines t1 DELETE_FILE_MARK with
          | .error e => .error e
          | .ok (p2, t2) =>
            if p2 ≠ "" then
              if (actions.lookup p2).isSome then .error (.duplicatePath p2)
              else if (files.lookup p2).isNone then .error (.missingFile p2)
              else
                parseLoop lines files fuel t2
                  (actions ++ [(p2, { type := .delete, chunks := [] })]) fuzz
            else
              match readStr lines t2 ADD_FILE_MARK with
              | .error e => .error e
              | .ok (p3, t3) =>
                if p3 ≠ "" then
                  if (actions.lookup p3).isSome then .error (.duplicatePath p3)
                  else if (files.lookup p3).isSome then .error (.fileExists p3)
                  else
                    match addLoop lines (lines.length + 1) t3 [] with
                    | .error e => .error e
                    | .ok (tEnd, ls) =>
                      let act : PatchAction :=
                        { type := .add, new_file := some (joinNL ls),
                          chunks := [] }
                      parseLoop lines files fuel tEnd
                        (actions ++ [(p3, act)]) fuzz
                else .error (.unknownLine (getLine lines t3))

/-- Embedding of Parser.parse as invoked by text_to_patch (the patch-line
cursor starts at 1, past the Begin Patch line), including the final
End Patch check. -/
def parseRun (lines : List String) (files : List (String × String)) :
    Except DiffError (List (String × PatchAction) × Nat) :=
  match parseLoop lines files (lines.length + 1) 1 [] 0 with
  | .error e => .error e
  | .ok (tEnd, actions, fuzz) =>
    if ¬ jsStartsWith (getLine lines tEnd) (jsTrim END_PATCH_MARK) then
      .error .missingEndPatch
    else .ok (actions, fuzz)

/-! ## Normalizer, sanitizer and header repairer -/

/-- The token test of sanitize_patch_lines: keep only lines beginning
with three stars, three dashes, three pluses, two at-signs, or one of
space, plus, minus. -/
def tokenTest (l : String) : Bool :=
  jsStartsWith l "***" || jsStartsWith l "---" || jsStartsWith l "+++" ||
  jsStartsWith l "@@" ||
  (match strHead l with
   | some c => c = ' ' || c = '+' || c = '-'
   | none => false)

/-- Embedding of sanitize_patch_lines: filter by the token test, then
right-trim each survivor. -/
def sanitize_patch_lines (lines : List String) : List String :=
  (lines.filter tokenTest).map jsTrimEnd

/-- A control character removed by strip_control_chars (tab, newline and
carriage return are preserved). -/
def isCtrlStripped (c : Char) : Bool :=
  c.toNat ≤ 0x08 ∨ (0x0B ≤ c.toNat ∧ c.toNat ≤ 0x0C) ∨
  (0x0E ≤ c.toNat ∧ c.toNat ≤ 0x1F)

/-- Embedding of strip_control_chars (the console warning is a no-op for
the result value). -/
def strip_control_chars (lines : List String) : List String :=
  lines.map (fun l => ⟨l.data.filter (fun c => ¬ isCtrlStripped c)⟩)

/-- Strip a literal character sequence from the front, or fail. -/
def dropLit : List Char → List Char → Option (List Char)
  | rest, [] => some rest
  | [], _ :: _ => none
  | c :: rest, p :: ps => if c = p then dropLit rest ps else none

/-- ASCII digit span: longest digit run and the remainder. -/
def spanDigits (cs : List Char) : List Char × List Char :=
  (cs.takeWhile Char.isDigit, cs.dropWhile Char.isDigit)

/-- Parse an optional count group of the hunk-header regex: a space or
comma separator followed by at least one digit, then the given literal.
Mirrors the regex's backtracking: the group is taken when it matches in
full and the following literal matches, otherwise the group is skipped and
the literal alone must match. -/
def optCountGroup (lit : List Char) (cs : List Char) :
    Option (Option (Char × String) × List Char) :=
  match cs with
  | c :: r2 =>
    if c = ' ' ∨ c = ',' then
      match spanDigits r2 with
      | (d, r3) =>
        if d ≠ [] then
          match dropLit r3 lit with
          | some r4 => some (some (c, ⟨d⟩), r4)
          | none =>
            match dropLit cs lit with
            | some r => some (none, r)
            | none => none
        else
          match dropLit cs lit with
          | some r => some (none, r)
          | none => none
    else
      match dropLit cs lit with
      | some r => some (none, r)
      | none => none
  | [] =>
    match dropLit cs lit with
    | some r => some (none, r)
    | none => none

/-- Matcher for the hunk-header repair regex: on success returns the first
start, the optional first count with its separator, the second start, and
the optional second count with its separator. -/
def matchHunkHeader (l : String) :
    Option (String × Option (Char × String) × String × Option (Char × String)) :=
  match dropLit l.data ['@', '@', ' ', '-'] with
  | none => none
  | some r0 =>
    match spanDigits r0 with
    | (s1, r1) =>
      if s1 = [] then none
      else
        match optCountGroup [' ', '+'] r1 with
        | none => none
        | some (g1, r4) =>
          match spanDigits r4 with
          | (s2, r5) =>
            if s2 = [] then none
            else
              match optCountGroup [' ', '@', '@'] r5 with
              | none => none
              | some (g2, r8) =>
                if r8 = [] then some (⟨s1⟩, g1, ⟨s2⟩, g2)
                else none

/-- Rewrite one line as repair_hunk_headers does: canonicalise a matching
hunk header, pass anything else through. -/
def repairLine (l : String) : String :=
  match matchHunkHeader l with
  | none => l
  | some (s1, g1, s2, g2) =>
    "@@ -" ++ s1 ++ "," ++ ((g1.map (fun g => g.2)).getD "0") ++
    " +" ++ s2 ++ "," ++ ((g2.map (fun g => g.2)).getD "0") ++ " @@"

/-- Embedding of repair_hunk_headers. -/
def repair_hunk_headers (lines : List String) : List String :=
  lines.map repairLine

/-! ## Pipeline -/

/-- Embedding of text_to_patch: normalise, sanitise, strip control
characters, repair headers, check the patch envelope, then parse against
the supplied originals. -/
def text_to_patch (text : String) (orig : List (String × String)) :
    Except DiffError (Patch × Nat) :=
  let lines := repair_hunk_headers (strip_control_chars
    (sanitize_patch_lines (jsSplitNL (jsTrim (normNL text)))))
  if lines.length < 2 then .error (.invalidPatchText 0)
  else if ¬ jsStartsWith (getLine lines 0) (jsTrim BEGIN_PATCH_MARK) then
    .error (.invalidPatchText 1)
  else if ¬ (getLine lines (lines.length - 1) = jsTrim END_PATCH_MARK) then
    .error (.invalidPatchText 2)
  else
    match parseRun lines orig with
    | .error e => .error e
    | .ok (actions, fuzz) => .ok (⟨actions⟩, fuzz)

/-- Embedding of identify_files_needed: the Update and Delete paths of the
patch text, first occurrence order, de-duplicated. -/
def identifyAux : List String → List String → List String
  | [], acc => acc
  | l :: rest, acc =>
    let acc :=
      if jsStartsWith l UPDATE_FILE_MARK then
        let p := strDrop l UPDATE_FILE_MARK.length
        if p ∈ acc then acc else acc ++ [p]
      else acc
    let acc :=
      if jsStartsWith l DELETE_FILE_MARK then
        let p := strDrop l DELETE_FILE_MARK.length
        if p ∈ acc then acc else acc ++ [p]
      else acc
    identifyAux rest acc

/-- Embedding of identify_files_needed. -/
def identify_files_needed (text : String) : List String :=
  identifyAux (jsSplitNL (jsTrim text)) []

/-- Embedding of load_files over a pure filesystem snapshot: a missing
path is the file-not-found DiffError. -/
def loadAux (fs : List (String × String)) :
    List String → List (String × String) →
    Except DiffError (List (String × String))
  | [], acc => .ok acc
  | p :: rest, acc =>
    match fs.lookup p with
    | none => .error (.fileNotFound p)
    | some c => loadAux fs rest (acc ++ [(p, c)])

/-- Embedding of load_files. -/
def load_files (paths : List String) (fs : List (String × String)) :
    Except DiffError (List (String × String)) :=
  loadAux fs paths []

/-- The chunk-replay loop of _get_updated_file. -/
def replayChunks (p : String) (origLines : List String) :
    List Chunk → Nat → List String → Except DiffError (List String)
  | [], origIndex, dest => .ok (dest ++ origLines.drop origIndex)
  | c :: rest, origIndex, dest =>
    if origLines.length < c.orig_index then .error (.chunkOutOfRange p)
    else if c.orig_index < origIndex then .error (.chunkOrderViolation p)
    else
      replayChunks p origLines rest (c.orig_index + c.del_lines.length)
        (dest ++ (origLines.drop origIndex).take (c.orig_index - origIndex) ++
          c.ins_lines)

/-- Embedding of _get_updated_file: replay the chunks of an Update action
over the original text. -/
def _get_updated_file (text : String) (action : PatchAction) (p : String) :
    Except DiffError String :=
  if action.type ≠ ActionType.update then .error (.notUpdateAction p)
  else
    match replayChunks p (jsSplitNL text) action.chunks 0 [] with
    | .error e => .error e
    | .ok dest => .ok (joinNL dest)

/-- The per-action loop of patch_to_commit. -/
def commitAux (orig : List (String × String)) :
    List (String × PatchAction) → List (String × FileChange) →
    Except DiffError (List (String × FileChange))
  | [], acc => .ok acc
  | (p, a) :: rest, acc =>
    match a.type with
    | .delete =>
      commitAux orig rest
        (acc ++ [(p, { type := .delete, old_content := orig.lookup p })])
    | .add =>
      commitAux orig rest
        (acc ++ [(p, { type := .add,
                       new_content := some (a.new_file.getD "") })])
    | .update =>
      match _get_updated_file ((orig.lookup p).getD "") a p with
      | .error e => .error e
      | .ok nc =>
        commitAux orig rest
          (acc ++ [(p, { type := .update, old_content := orig.lookup p,
                         new_content := some nc,
                         move_path := a.move_path })])

/-- Embedding of patch_to_commit. -/
def patch_to_commit (patch : Patch) (orig : List (String × String)) :
    Except DiffError Commit :=
  match commitAux orig patch.actions [] with
  | .error e => .error e
  | .ok changes => .ok ⟨changes⟩

/-- The operations apply_commit hands to arbitrary injected callbacks, in
order. -/
def apply_commit : List (String × FileChange) → List FsOp
  | [] => []
  | (p, ch) :: rest =>
    (match ch.type with
     | .delete => [FsOp.remove p]
     | .add => [FsOp.write p (ch.new_content.getD "")]
     | .update =>
       match ch.move_path with
       | some m => [FsOp.write m (ch.new_content.getD ""), FsOp.remove p]
       | none => [FsOp.write p (ch.new_content.getD "")]) ++ apply_commit rest

/-- Modelled from the spec: Node's path.isAbsolute for POSIX paths (the
path module is a platform built-in, not repository code): a path is
absolute when it begins with a slash. -/
def isAbsolutePath (p : String) : Bool :=
  jsStartsWith p "/"

/-- The default write callback write_file: absolute paths are rejected
with a DiffError before any write happens. -/
def write_file_op (p c : String) : Except DiffError FsOp :=
  if isAbsolutePath p then .error .absolutePathRejected else .ok (.write p c)

/-- The operations one FileChange performs through the default callbacks
write_file and remove_file: a Delete removes, an Add writes, an Update
writes (to the move target when given, then removing the source); the
write is the checked default write. -/
def changeStep (p : String) (ch : FileChange) : Except DiffError (List FsOp) :=
  match ch.type with
  | .delete => .ok [FsOp.remove p]
  | .add =>
    match write_file_op p (ch.new_content.getD "") with
    | .error e => .error e
    | .ok o => .ok [o]
  | .update =>
    match ch.move_path with
    | some m =>
      match write_file_op m (ch.new_content.getD "") with
      | .error e => .error e
      | .ok o => .ok [o, FsOp.remove p]
    | none =>
      match write_file_op p (ch.new_content.getD "") with
      | .error e => .error e
      | .ok o => .ok [o]

/-- apply_commit run against the default filesystem callbacks: the trace
of performed operations, and the error that stopped the run, if any
(operations performed before the failure are kept, matching the source's
non-journaled sequential writes). -/
def apply_commit_fs : List (String × FileChange) → List FsOp × Option DiffError
  | [] => ([], none)
  | (p, ch) :: rest =>
    match changeStep p ch with
    | .error e => ([], some e)
    | .ok ops =>
      let (ops', e) := apply_commit_fs rest
      (ops ++ ops', e)

/-- Embedding of process_patch with the default filesystem callbacks over
a pure snapshot: returns the trace of filesystem operations performed and
the error, if any, that aborted the run. -/
def process_patch (text : String) (fs : List (String × String)) :
    List FsOp × Option DiffError :=
  if ¬ jsStartsWith text BEGIN_PATCH_MARK then
    ([], some .patchMustStartWithBegin)
  else
    match load_files (identify_files_needed text) fs with
    | .error e => ([], some e)
    | .ok orig =>
      match text_to_patch text orig with
      | .error e => ([], some e)
      | .ok (patch, _fuzz) =>
        match patch_to_commit patch orig with
        | .error e => ([], some e)
        | .ok commit => apply_commit_fs commit.changes

/-! ## Concrete scenarios -/

/-- Scenario S1: the simple update patch. -/
def s1Text : String :=
  "*** Begin Patch\n*** Update File: hello.py\n@@\n def f():\n-    pass\n+    raise NotImplementedError()\n*** End Patch"

/-- Scenario S1: the original file snapshot. -/
def s1Files : List (String × String) :=
  [("hello.py", "def f():\n    pass\n")]

/-- Scenario S2: S1 with the space prefix of the context line dropped. -/
def s2Text : String :=
  "*** Begin Patch\n*** Update File: hello.py\n@@\ndef f():\n-    pass\n+    raise NotImplementedError()\n*** End Patch"

/-- Scenario S4 instance: the S1 original with two blank lines prepended. -/
def c7Files : List (String × String) :=
  [("hello.py", "\n\ndef f():\n    pass\n")]

/-! ## Claim theorems -/

/-- C1: the claimed S1 behaviour fails on the code as written: parsing the
S1 patch against the S1 original reaches the chunk push of
peek_next_section with a pending deletion and insertion, where the
hunk-counts consistency check reads the out-of-scope expectedDel and
expectedIns, so text_to_patch aborts with that error instead of
succeeding with fuzz 0. -/
theorem claim_C1 :
    text_to_patch s1Text s1Files = .error DiffError.outOfScopeRead := rfl

/-- C5: the empty patch parses against any originals to an empty action
map with fuzz 0, commits to an empty Commit, and process_patch performs no
filesystem operation, leaving every file unchanged. -/
theorem claim_C5 (orig : List (String × String)) :
    text_to_patch "*** Begin Patch\n*** End Patch" orig = .ok (⟨[]⟩, 0) ∧
    patch_to_commit ⟨[]⟩ orig = .ok ⟨[]⟩ ∧
    apply_commit [] = [] ∧
    process_patch "*** Begin Patch\n*** End Patch" orig = ([], none) :=
  ⟨rfl, rfl, rfl, rfl⟩

/-- C10: an empty expected context always matches at the supplied cursor
with zero fuzz, for any file content and any cursor, so it can never
produce the invalid-context error. -/
theorem claim_C10 (lines : List String) (start : Nat) :
    find_context lines [] start false = ((start : Int), 0) := rfl

/-- No position of the scan window from start to maxIdx matches the
context under the given transform. -/
def noMatchIn (tr : String → String) (lines ctx : List String)
    (start maxIdx : Nat) : Prop :=
  ∀ k, start ≤ k → k ≤ maxIdx → matchAt tr lines ctx k = false

/-- k is the first position of the scan window at which every context
line matches under the given transform. -/
def firstMatchAt (tr : String → String) (lines ctx : List String)
    (start maxIdx k : Nat) : Prop :=
  start ≤ k ∧ k ≤ maxIdx ∧ matchAt tr lines ctx k = true ∧
  ∀ m, start ≤ m → m < k → matchAt tr lines ctx m = false

/-- The seek loop returns -1 exactly when no window position matches, and
otherwise the first matching position. -/
theorem seekAux_spec (tr : String → String) (lines ctx : List String)
    (maxIdx : Nat) :
    ∀ fuel i, maxIdx + 1 ≤ i + fuel →
      (seekAux tr lines ctx maxIdx fuel i = -1 ∧
        noMatchIn tr lines ctx i maxIdx) ∨
      (∃ k : Nat, seekAux tr lines ctx maxIdx fuel i = (k : Int) ∧
        firstMatchAt tr lines ctx i maxIdx k) := by
  intro fuel
  induction fuel with
  | zero =>
    intro i hf
    left
    exact ⟨rfl, fun k hik hk => by omega⟩
  | succ n ih =>
    intro i hf
    by_cases hgt : maxIdx < i
    · left
      exact ⟨by simp [seekAux, hgt], fun k hik hk => by omega⟩
    · by_cases hm : matchAt tr lines ctx i = true
      · right
        refine ⟨i, by simp [seekAux, hgt, hm], ?_⟩
        exact ⟨Nat.le_refl i, by omega, hm, fun m h1 h2 => by omega⟩
      · have hm' : matchAt tr lines ctx i = false := by
          simpa using hm
        have hstep : seekAux tr lines ctx maxIdx (n + 1) i =
            seekAux tr lines ctx maxIdx n (i + 1) := by
          simp [seekAux, hgt, hm']
        rcases ih (i + 1) (by omega) with ⟨hres, hno⟩ | ⟨k, hres, h1, h2, h3, hfirst⟩
        · left
          refine ⟨hstep.trans hres, ?_⟩
          intro k hik hk
          rcases Nat.eq_or_lt_of_le hik with heq | hlt
          · exact heq ▸ hm'
          · exact hno k hlt hk
        · right
          refine ⟨k, hstep.trans hres, by omega, h2, h3, ?_⟩
          intro m hm1 hm2
          rcases Nat.eq_or_lt_of_le hm1 with heq | hlt
          · exact heq ▸ hm'
          · exact hfirst m hlt hm2

/-- seekSequence specification: instance of the loop lemma at full fuel. -/
theorem seekSequence_spec (tr : String → String) (lines ctx : List String)
    (start maxIdx : Nat) :
    (seekSequence tr lines ctx start maxIdx = -1 ∧
      noMatchIn tr lines ctx start maxIdx) ∨
    (∃ k : Nat, seekSequence tr lines ctx start maxIdx = (k : Int) ∧
      firstMatchAt tr lines ctx start maxIdx k) :=
  seekAux_spec tr lines ctx maxIdx (maxIdx + 1 - start) start (by omega)

/-- C3: on a non-empty context no longer than the file, the source's
find_context_core -- stated here for an arbitrary Unicode normalisation,
so that it holds in particular at the platform's NFC built-in -- is the
four-rung ladder: exact equality, right-trimmed equality, fully trimmed
equality, then NFC-plus-punctuation-table canonicalised equality, each
scanning positions start to length difference inclusive, returning the
first matching position with penalty 0, 1, 100 or 1000 respectively, and
a later rung is reached only when every earlier rung matches nowhere in
the window. -/
theorem claim_C3 (nfc : String → String) (lines ctx : List String)
    (start : Nat) (hne : ctx ≠ []) (hle : ctx.length ≤ lines.length) :
    (find_context_coreWith nfc lines ctx start = (-1, 0) ∧
      noMatchIn id lines ctx start (lines.length - ctx.length) ∧
      noMatchIn jsTrimEnd lines ctx start (lines.length - ctx.length) ∧
      noMatchIn jsTrim lines ctx start (lines.length - ctx.length) ∧
      noMatchIn (canonWith nfc) lines ctx start (lines.length - ctx.length)) ∨
    (∃ k : Nat, firstMatchAt id lines ctx start (lines.length - ctx.length) k ∧
      find_context_coreWith nfc lines ctx start = ((k : Int), 0)) ∨
    (∃ k : Nat, noMatchIn id lines ctx start (lines.length - ctx.length) ∧
      firstMatchAt jsTrimEnd lines ctx start (lines.length - ctx.length) k ∧
      find_context_coreWith nfc lines ctx start = ((k : Int), 1)) ∨
    (∃ k : Nat, noMatchIn id lines ctx start (lines.length - ctx.length) ∧
      noMatchIn jsTrimEnd lines ctx start (lines.length - ctx.length) ∧
      firstMatchAt jsTrim lines ctx start (lines.length - ctx.length) k ∧
      find_context_coreWith nfc lines ctx start = ((k : Int), 100)) ∨
    (∃ k : Nat, noMatchIn id lines ctx start (lines.length - ctx.length) ∧
      noMatchIn jsTrimEnd lines ctx start (lines.length - ctx.length) ∧
      noMatchIn jsTrim lines ctx start (lines.length - ctx.length) ∧
      firstMatchAt (canonWith nfc) lines ctx start (lines.length - ctx.length) k ∧
      find_context_coreWith nfc lines ctx start = ((k : Int), 1000)) := by
  have h0 : ¬ (ctx.length = 0) := by
    simpa [List.length_eq_zero] using hne
  have h1 : ¬ (lines.length < ctx.length) := not_lt.mpr hle
  have hintne : ∀ k : Nat, ((k : Int) ≠ -1) := fun k => by omega
  rcases seekSequence_spec id lines ctx start (lines.length - ctx.length)
    with ⟨e1, n1⟩ | ⟨k, e1, f1⟩
  · rcases seekSequence_spec jsTrimEnd lines ctx start (lines.length - ctx.length)
      with ⟨e2, n2⟩ | ⟨k, e2, f2⟩
    · rcases seekSequence_spec jsTrim lines ctx start (lines.length - ctx.length)
        with ⟨e3, n3⟩ | ⟨k, e3, f3⟩
      · rcases seekSequence_spec (canonWith nfc) lines ctx start
          (lines.length - ctx.length) with ⟨e4, n4⟩ | ⟨k, e4, f4⟩
        · refine Or.inl ⟨?_, n1, n2, n3, n4⟩
          simp [find_context_coreWith, h0, h1, e1, e2, e3, e4]
        · refine Or.inr (Or.inr (Or.inr (Or.inr ⟨k, n1, n2, n3, f4, ?_⟩)))
          simp [find_context_coreWith, h0, h1, e1, e2, e3, e4, hintne k]
      · refine Or.inr (Or.inr (Or.inr (Or.inl ⟨k, n1, n2, f3, ?_⟩)))
        simp [find_context_coreWith, h0, h1, e1, e2, e3, hintne k]
    · refine Or.inr (Or.inr (Or.inl ⟨k, n1, f2, ?_⟩))
      simp [find_context_coreWith, h0, h1, e1, e2, hintne k]
  · refine Or.inr (Or.inl ⟨k, f1, ?_⟩)
    simp [find_context_coreWith, h0, h1, e1, hintne k]

/-- C3 witness: the ladder characterisation instantiated at the modelled
normalisation and a two-line file whose second line matches the context
only after right-trimming. -/
theorem claim_C3_witness :
    (find_context_coreWith nfcNormalize ["a", "b "] ["b"] 0 = (-1, 0) ∧
      noMatchIn id ["a", "b "] ["b"] 0 1 ∧
      noMatchIn jsTrimEnd ["a", "b "] ["b"] 0 1 ∧
      noMatchIn jsTrim ["a", "b "] ["b"] 0 1 ∧
      noMatchIn (canonWith nfcNormalize) ["a", "b "] ["b"] 0 1) ∨
    (∃ k : Nat, firstMatchAt id ["a", "b "] ["b"] 0 1 k ∧
      find_context_coreWith nfcNormalize ["a", "b "] ["b"] 0 = ((k : Int), 0)) ∨
    (∃ k : Nat, noMatchIn id ["a", "b "] ["b"] 0 1 ∧
      firstMatchAt jsTrimEnd ["a", "b "] ["b"] 0 1 k ∧
      find_context_coreWith nfcNormalize ["a", "b "] ["b"] 0 = ((k : Int), 1)) ∨
    (∃ k : Nat, noMatchIn id ["a", "b "] ["b"] 0 1 ∧
      noMatchIn jsTrimEnd ["a", "b "] ["b"] 0 1 ∧
      firstMatchAt jsTrim ["a", "b "] ["b"] 0 1 k ∧
      find_context_coreWith nfcNormalize ["a", "b "] ["b"] 0 = ((k : Int), 100)) ∨
    (∃ k : Nat, noMatchIn id ["a", "b "] ["b"] 0 1 ∧
      noMatchIn jsTrimEnd ["a", "b "] ["b"] 0 1 ∧
      noMatchIn jsTrim ["a", "b "] ["b"] 0 1 ∧
      firstMatchAt (canonWith nfcNormalize) ["a", "b "] ["b"] 0 1 k ∧
      find_context_coreWith nfcNormalize ["a", "b "] ["b"] 0 = ((k : Int), 1000)) :=
  claim_C3 nfcNormalize ["a", "b "] ["b"] 0 (by decide) (by decide)

/-- C4: with the end-of-file flag set, the matcher first tries the ladder
at the terminal anchor and returns its verdict unchanged on success; when
the anchor attempt fails (or is impossible), a successful full scan from
the cursor is returned with 10000 added; consequently any successful
match under the flag that is not an anchor-attempt success carries a
penalty of at least 10000. -/
theorem claim_C4 (lines ctx : List String) (start : Nat) :
    (ctx.length ≤ lines.length →
      (find_context_core lines ctx (lines.length - ctx.length)).1 ≠ -1 →
      find_context lines ctx start true =
        find_context_core lines ctx (lines.length - ctx.length)) ∧
    ((lines.length < ctx.length ∨
        (find_context_core lines ctx (lines.length - ctx.length)).1 = -1) →
      (find_context_core lines ctx start).1 ≠ -1 →
      find_context lines ctx start true =
        ((find_context_core lines ctx start).1,
          (find_context_core lines ctx start).2 + 10000)) ∧
    (∀ i f, find_context lines ctx start true = (i, f) → i ≠ -1 →
      (ctx.length ≤ lines.length ∧
        (find_context_core lines ctx (lines.length - ctx.length)).1 ≠ -1) ∨
      10000 ≤ f) := by
  refine ⟨?_, ?_, ?_⟩
  · intro h1 h2
    simp only [find_context, if_pos h1, if_pos h2, h2]
    simp [h2]
  · intro h h3
    have hanch : (if ctx.length ≤ lines.length then
        find_context_core lines ctx (lines.length - ctx.length)
        else ((-1 : Int), 0)).1 = -1 := by
      rcases h with hlt | heq
      · rw [if_neg (by omega)]
      · by_cases hle : ctx.length ≤ lines.length
        · rw [if_pos hle]; exact heq
        · rw [if_neg hle]
    have hnot : ¬ ((if ctx.length ≤ lines.length then
        find_context_core lines ctx (lines.length - ctx.length)
        else ((-1 : Int), 0)).1 ≠ -1) := not_not_intro hanch
    have hguard : ¬ (((find_context_core lines ctx start).1,
        (find_context_core lines ctx start).2 + 10000).1 = -1 ∧
        0 < ctx.length) := fun hc => h3 hc.1
    simp only [find_context, if_true]
    rw [if_neg hnot, if_neg hguard]
  · intro i f hfc hne
    by_cases hcase : ctx.length ≤ lines.length ∧
        (find_context_core lines ctx (lines.length - ctx.length)).1 ≠ -1
    · exact Or.inl hcase
    · right
      have hanch : (if ctx.length ≤ lines.length then
          find_context_core lines ctx (lines.length - ctx.length)
          else ((-1 : Int), 0)).1 = -1 := by
        by_cases hle : ctx.length ≤ lines.length
        · rw [if_pos hle]
          by_contra hne'
          exact hcase ⟨hle, hne'⟩
        · rw [if_neg hle]
      have hnot : ¬ ((if ctx.length ≤ lines.length then
          find_context_core lines ctx (lines.length - ctx.length)
          else ((-1 : Int), 0)).1 ≠ -1) := not_not_intro hanch
      simp only [find_context, if_true] at hfc
      rw [if_neg hnot] at hfc
      by_cases hg : (((find_context_core lines ctx start).1,
          (find_context_core lines ctx start).2 + 10000) : Int × Nat).1 = -1 ∧
          0 < ctx.length
      · rw [if_pos hg] at hfc
        rcases hfb : fbFind lines ctx start [-2, -1, 0, 1, 2] with _ | j
        · rw [hfb] at hfc
          exact absurd (congrArg Prod.fst hfc).symm hne
        · rw [hfb] at hfc
          have hf : f = (find_context_core lines ctx start).2 + 10000 + 50000 :=
            (congrArg Prod.snd hfc).symm
          omega
      · rw [if_neg hg] at hfc
        have hf : f = (find_context_core lines ctx start).2 + 10000 :=
          (congrArg Prod.snd hfc).symm
        omega

/-- C4 witness: a context that matches only at the head of the file but is
probed under the EOF flag comes back with the 10000 penalty. -/
theorem claim_C4_witness :
    find_context ["a", "b", "c"] ["a"] 0 true = (0, 10000) := by
  have h := (claim_C4 ["a", "b", "c"] ["a"] 0).2.1 (Or.inr (by decide)) (by decide)
  exact h.trans (by decide)

/-- C2: a context the matcher cannot place (index -1) makes the update
parser fail with the invalid-context DiffError (the EOF variant when the
section carried the end-of-file marker); the failure propagates out of the
update loop, and a process_patch run whose parse fails performs no
filesystem operation at all. -/
theorem claim_C2 :
    (∀ fileLines fIdx ctx chs endIdx eof,
      (find_context fileLines ctx fIdx eof).1 = -1 →
      updResolve fileLines fIdx (ctx, chs, endIdx, eof) =
        .error (if eof then DiffError.invalidEOFContext fIdx ctx
                else DiffError.invalidContext fIdx ctx)) ∧
    (∀ lines fileLines fuel tIdx fIdx fuzz acc e,
      isDoneAt lines tIdx updDoneMarks = false →
      updIter lines fileLines tIdx fIdx fuzz = .error e →
      updLoop lines fileLines (fuel + 1) tIdx fIdx fuzz acc = .error e) ∧
    (∀ text fs orig e,
      load_files (identify_files_needed text) fs = .ok orig →
      text_to_patch text orig = .error e →
      ∃ e', process_patch text fs = ([], some e')) := by
  refine ⟨?_, ?_, ?_⟩
  · intro fileLines fIdx ctx chs endIdx eof hm
    rcases hfc : find_context fileLines ctx fIdx eof with ⟨ni, fz⟩
    have hni : ni = -1 := by rw [hfc] at hm; exact hm
    simp only [updResolve, hfc, hni, if_pos rfl]
    cases eof <;> simp
  · intro lines fileLines fuel tIdx fIdx fuzz acc e hdone hiter
    simp only [updLoop, hdone, Bool.false_eq_true, if_false, hiter]
  · intro text fs orig e hload http
    by_cases hb : jsStartsWith text BEGIN_PATCH_MARK
    · refine ⟨e, ?_⟩
      simp only [process_patch, hb, not_true, if_neg, hload, http]
      simp [hb]
    · refine ⟨DiffError.patchMustStartWithBegin, ?_⟩
      simp [process_patch, hb]

/-- C2 witness: a one-line context absent from a short file produces the
invalid-context error at each level, and a malformed patch text makes
process_patch fail before any write. -/
theorem claim_C2_witness :
    updResolve ["a"] 0 (["b"], [], 0, false) =
      .error (DiffError.invalidContext 0 ["b"]) ∧
    updLoop ["x"] [] 1 0 0 0 [] = .error (DiffError.invalidContext 0 ["x"]) ∧
    ∃ e', process_patch "*** Begin Patch" [] = ([], some e') := by
  refine ⟨?_, ?_, ?_⟩
  · have h := claim_C2.1 ["a"] 0 ["b"] [] 0 false (by decide)
    exact h.trans rfl
  · exact claim_C2.2.1 ["x"] [] 0 0 0 0 []
      (DiffError.invalidContext 0 ["x"]) (by decide) rfl
  · exact claim_C2.2.2 "*** Begin Patch" [] []
      (DiffError.invalidPatchText 0) rfl rfl

/-- C7 counterexample: against the original with two blank lines
prepended, the S1 patch does not parse at all -- no Update patch with any
fuzz, let alone 50000, is produced, because the parse aborts at the
out-of-scope read in the chunk push of peek_next_section -- and the
context matcher itself places the shifted context exactly at offset 2
with fuzz 0, refuting the claimed fallback-rung match. -/
theorem claim_C7_counterexample :
    (¬ ∃ (p : Patch) (f : Nat),
      text_to_patch s1Text c7Files = .ok (p, f) ∧ 50000 ≤ f) ∧
    find_context (jsSplitNL "\n\ndef f():\n    pass\n")
      ["def f():", "    pass"] 0 false = (2, 0) := by
  constructor
  · rintro ⟨p, f, hok, _⟩
    rw [show text_to_patch s1Text c7Files = .error DiffError.outOfScopeRead
      from rfl] at hok
    cases hok
  · rfl

/-- C7 amended: for an Update patch whose hunk context equals the original
file except for 2 extra blank lines prepended before the context region,
parsing does not succeed at all: it aborts with the out-of-scope-variable
error at the chunk push of peek_next_section; and independently the
context matcher, applied to that context and the shifted file, succeeds
at offset 2 with fuzz 0 via the exact-equality rung (the rungs scan
forward from the cursor), so even without the abort the
plus-minus-two-line fallback and its 50000 penalty would not be
consulted. -/
theorem claim_C7 :
    text_to_patch s1Text c7Files = .error DiffError.outOfScopeRead ∧
    find_context (jsSplitNL "\n\ndef f():\n    pass\n")
      ["def f():", "    pass"] 0 false = (2, 0) :=
  ⟨rfl, rfl⟩

/-- C8: the claimed S2 behaviour fails on the code as written: the S2
patch (context line without its leading space) aborts, like S1, at the
out-of-scope read in the chunk push of peek_next_section instead of
applying with fuzz 0.  The tolerance mechanism the claim describes is
nonetheless real: the section peeker treats any line that begins with
none of space, plus, minus (and is not a directive or hunk-header line)
exactly as the same line with a space prefixed, that is, as a context
line, with no error and no fuzz of its own. -/
theorem claim_C8 :
    text_to_patch s2Text s1Files = .error DiffError.outOfScopeRead ∧
    (∀ s rest mode old del ins chunks,
      peekBreakMarks.any (fun p => jsStartsWith s p) = false →
      jsStartsWith s "***" = false →
      strHead s ≠ some '+' → strHead s ≠ some '-' → strHead s ≠ some ' ' →
      peekAux (s :: rest) mode old del ins chunks =
        peekAux ((" " ++ s) :: rest) mode old del ins chunks) := by
  constructor
  · rfl
  · intro s rest mode old del ins chunks hbrk hstar hp hm hsp
    have hne3 : ¬ (s = "***") := by
      intro h
      rw [h] at hstar
      exact absurd hstar (by decide)
    have hb2 : peekBreakMarks.any (fun p => jsStartsWith (" " ++ s) p) = false := rfl
    have hq2 : jsStartsWith (" " ++ s) "***" = false := rfl
    have hne4 : ¬ ((" " ++ s) = "***") := by
      intro h
      have hd := congrArg String.data h
      simp [show (" " ++ s).data = ' ' :: s.data from rfl] at hd
    have hhead : strHead (" " ++ s) = some ' ' := rfl
    have hdrop : strDrop (" " ++ s) 1 = s := rfl
    simp only [peekAux, hbrk, hb2, hq2, hstar, hne3, hne4, hhead, hdrop,
      Bool.false_eq_true, if_false, if_neg hne3, if_neg hne4]
    simp [hp, hm, hsp]

/-- C8 witness: the peeker equivalence applied to the S2 context line, and
the concrete S2 run from the first conjunct re-established through the
theorem. -/
theorem claim_C8_witness :
    peekAux ["def f():"] PMode.keep [] [] [] [] =
      peekAux [" def f():"] PMode.keep [] [] [] [] :=
  claim_C8.2 "def f():" [] PMode.keep [] [] [] []
    (by decide) (by decide) (by decide) (by decide) (by decide)

/-- The paths a single FileChange would pass to the write callback. -/
def writeTargets (p : String) (ch : FileChange) : List String :=
  match ch.type with
  | .delete => []
  | .add => [p]
  | .update =>
    match ch.move_path with
    | some m => [m]
    | none => [p]

/-- A successful default write produces exactly the requested operation on
a non-absolute path. -/
theorem write_file_op_ok (p c : String) (o : FsOp)
    (h : write_file_op p c = .ok o) :
    o = FsOp.write p c ∧ isAbsolutePath p = false := by
  by_cases ha : isAbsolutePath p = true
  · rw [write_file_op, if_pos ha] at h
    cases h
  · rw [write_file_op, if_neg ha] at h
    cases h
    exact ⟨rfl, by simpa using ha⟩

/-- A failed default write is always the absolute-path rejection. -/
theorem write_file_op_err (p c : String) (e : DiffError)
    (h : write_file_op p c = .error e) :
    e = DiffError.absolutePathRejected ∧ isAbsolutePath p = true := by
  by_cases ha : isAbsolutePath p = true
  · rw [write_file_op, if_pos ha] at h
    cases h
    exact ⟨rfl, ha⟩
  · rw [write_file_op, if_neg ha] at h
    cases h

/-- Every write operation emitted by a successful changeStep is to a
non-absolute path. -/
theorem changeStep_ok_no_abs (q : String) (ch : FileChange) (ops : List FsOp)
    (h : changeStep q ch = .ok ops) :
    ∀ p c, FsOp.write p c ∈ ops → isAbsolutePath p = false := by
  intro p c hin
  rcases hty : ch.type with _ | _ | _ <;> rw [changeStep, hty] at h <;> dsimp only at h
  · rcases hw : write_file_op q (ch.new_content.getD "") with e' | o <;>
      rw [hw] at h <;> dsimp only at h
    · cases h
    · cases h
      rcases write_file_op_ok _ _ _ hw with ⟨ho, habs⟩
      simp only [List.mem_singleton] at hin
      cases hin.trans ho
      exact habs
  · cases h
    simp at hin
  · rcases hmv : ch.move_path with _ | m <;> rw [hmv] at h <;> dsimp only at h
    · rcases hw : write_file_op q (ch.new_content.getD "") with e' | o <;>
        rw [hw] at h <;> dsimp only at h
      · cases h
      · cases h
        rcases write_file_op_ok _ _ _ hw with ⟨ho, habs⟩
        simp only [List.mem_singleton] at hin
        cases hin.trans ho
        exact habs
    · rcases hw : write_file_op m (ch.new_content.getD "") with e' | o <;>
        rw [hw] at h <;> dsimp only at h
      · cases h
      · cases h
        rcases write_file_op_ok _ _ _ hw with ⟨ho, habs⟩
        rcases List.mem_pair.mp hin with hin1 | hin2
        · cases hin1.trans ho
          exact habs
        · cases hin2

/-- A failing changeStep fails with the absolute-path rejection. -/
theorem changeStep_err (q : String) (ch : FileChange) (e : DiffError)
    (h : changeStep q ch = .error e) : e = DiffError.absolutePathRejected := by
  rcases hty : ch.type with _ | _ | _ <;> rw [changeStep, hty] at h <;> dsimp only at h
  · rcases hw : write_file_op q (ch.new_content.getD "") with e' | o <;>
      rw [hw] at h <;> dsimp only at h
    · cases h
      exact (write_file_op_err _ _ _ hw).1
    · cases h
  · cases h
  · rcases hmv : ch.move_path with _ | m <;> rw [hmv] at h <;> dsimp only at h
    · rcases hw : write_file_op q (ch.new_content.getD "") with e' | o <;>
        rw [hw] at h <;> dsimp only at h
      · cases h
        exact (write_file_op_err _ _ _ hw).1
      · cases h
    · rcases hw : write_file_op m (ch.new_content.getD "") with e' | o <;>
        rw [hw] at h <;> dsimp only at h
      · cases h
        exact (write_file_op_err _ _ _ hw).1
      · cases h

/-- A change with an absolute write target makes changeStep fail. -/
theorem changeStep_abs (q : String) (ch : FileChange) (t : String)
    (ht : t ∈ writeTargets q ch) (habs : isAbsolutePath t = true) :
    ∃ e, changeStep q ch = .error e := by
  rcases hty : ch.type with _ | _ | _ <;> rw [writeTargets, hty] at ht <;>
    rw [changeStep, hty] <;> dsimp only at ht ⊢
  · simp only [List.mem_singleton] at ht
    subst ht
    rcases hw : write_file_op t (ch.new_content.getD "") with e' | o
    · exact ⟨e', rfl⟩
    · rcases write_file_op_ok _ _ _ hw with ⟨_, hfalse⟩
      rw [habs] at hfalse
      cases hfalse
  · simp at ht
  · rcases hmv : ch.move_path with _ | m <;> rw [hmv] at ht <;> dsimp only at ht ⊢
    · simp only [List.mem_singleton] at ht
      subst ht
      rcases hw : write_file_op t (ch.new_content.getD "") with e' | o
      · exact ⟨e', rfl⟩
      · rcases write_file_op_ok _ _ _ hw with ⟨_, hfalse⟩
        rw [habs] at hfalse
        cases hfalse
    · simp only [List.mem_singleton] at ht
      subst ht
      rcases hw : write_file_op t (ch.new_content.getD "") with e' | o
      · exact ⟨e', rfl⟩
      · rcases write_file_op_ok _ _ _ hw with ⟨_, hfalse⟩
        rw [habs] at hfalse
        cases hfalse

/-- No write in the trace of apply_commit_fs targets an absolute path. -/
theorem apply_commit_fs_no_abs :
    ∀ changes p c, FsOp.write p c ∈ (apply_commit_fs changes).1 →
      isAbsolutePath p = false := by
  intro changes
  induction changes with
  | nil =>
    intro p c h
    simp [apply_commit_fs] at h
  | cons pc rest ih =>
    intro p c h
    rcases pc with ⟨q, ch⟩
    simp only [apply_commit_fs] at h
    rcases hstep : changeStep q ch with e | ops <;> rw [hstep] at h <;>
      dsimp only at h
    · simp at h
    · rcases happ : apply_commit_fs rest with ⟨ops', e'⟩
      rw [happ] at h
      dsimp only at h
      rcases List.mem_append.mp h with hin | hin
      · exact changeStep_ok_no_abs q ch ops hstep p c hin
      · exact ih p c (by rw [happ]; exact hin)

/-- If some change targets an absolute path for writing, the run stops
with the absolute-path rejection. -/
theorem apply_commit_fs_abs_err :
    ∀ changes, (∃ pc ∈ changes, ∃ t ∈ writeTargets pc.1 pc.2,
        isAbsolutePath t = true) →
      (apply_commit_fs changes).2 = some DiffError.absolutePathRejected := by
  intro changes
  induction changes with
  | nil =>
    intro hex
    rcases hex with ⟨pc, hmem, _⟩
    simp at hmem
  | cons pc rest ih =>
    intro hex
    rcases pc with ⟨q, ch⟩
    rcases hex with ⟨pc', hmem, t, ht, habs⟩
    simp only [apply_commit_fs]
    rcases List.mem_cons.mp hmem with heq | hmem'
    · subst heq
      rcases changeStep_abs q ch t ht habs with ⟨e, he⟩
      rw [he]
      dsimp only
      rw [changeStep_err q ch e he]
    · rcases hstep : changeStep q ch with e | ops <;> dsimp only
      · rw [changeStep_err q ch e hstep]
      · have hrest := ih ⟨pc', hmem', t, ht, habs⟩
        rcases happ : apply_commit_fs rest with ⟨ops', e'⟩
        rw [happ] at hrest
        exact hrest

/-- The process_patch trace is either empty or the trace of applying the
built commit. -/
theorem process_patch_trace (text : String) (fs : List (String × String)) :
    (process_patch text fs).1 = [] ∨
    ∃ changes, process_patch text fs = apply_commit_fs changes := by
  unfold process_patch
  by_cases hb : jsStartsWith text BEGIN_PATCH_MARK = true
  · rw [if_neg (by simp [hb])]
    rcases load_files (identify_files_needed text) fs with e | orig
    · exact Or.inl rfl
    · dsimp only
      rcases text_to_patch text orig with e | pr
      · exact Or.inl rfl
      · rcases pr with ⟨patch, fz⟩
        dsimp only
        rcases patch_to_commit patch orig with e | commit
        · exact Or.inl rfl
        · exact Or.inr ⟨commit.changes, rfl⟩
  · rw [if_pos (by simpa using hb)]
    exact Or.inl rfl

/-- apply_commit, which runs arbitrary injected callbacks, performs no
path check at all: every write target of every change reaches the
injected write callback, absolute or not. -/
theorem apply_commit_mem_write :
    ∀ (changes : List (String × FileChange)) (pc : String × FileChange),
      pc ∈ changes → ∀ t, t ∈ writeTargets pc.1 pc.2 →
      FsOp.write t (pc.2.new_content.getD "") ∈ apply_commit changes := by
  intro changes
  induction changes with
  | nil =>
    intro pc h
    simp at h
  | cons qch rest ih =>
    intro pc hmem t ht
    rcases qch with ⟨q, ch⟩
    rcases List.mem_cons.mp hmem with heq | hmem'
    · subst heq
      dsimp only at ht ⊢
      simp only [apply_commit]
      rcases hty : ch.type with _ | _ | _ <;>
        rw [writeTargets, hty] at ht <;> dsimp only at ht
      · simp only [List.mem_singleton] at ht
        subst ht
        simp
      · simp at ht
      · rcases hmv : ch.move_path with _ | m
        · rw [hmv] at ht
          simp only [List.mem_singleton] at ht
          subst ht
          simp
        · rw [hmv] at ht
          simp only [List.mem_singleton] at ht
          subst ht
          simp
    · simp only [apply_commit]
      exact List.mem_append_right _ (ih pc hmem' t ht)

/-- A patch text adding a file at an absolute path. -/
def addAbsText : String :=
  "*** Begin Patch\n*** Add File: /etc/x\n+boom\n*** End Patch"

/-- A patch text adding a file at a relative path. -/
def addRelText : String :=
  "*** Begin Patch\n*** Add File: out.txt\n+hi\n*** End Patch"

/-- An Add FileChange that targets an absolute path. -/
def absAddChange : FileChange :=
  { type := ActionType.add, old_content := none,
    new_content := some "boom", move_path := none }

/-- The Add PatchAction the absolute-path patch parses to. -/
def absAddAction : PatchAction :=
  { type := ActionType.add, new_file := some "boom",
    chunks := [], move_path := none }

/-- C9 counterexample: the claim quantifies over every injected
write/remove callback, but the absolute-path check lives only in the
default write_file; run with arbitrary injected callbacks (their
invocations are the apply_commit trace), a patch adding a file at the
absolute path /etc/x parses, commits, and hands that absolute path to the
injected write callback unchecked. -/
theorem claim_C9_counterexample :
    ∃ (p : Patch) (c : Commit),
      text_to_patch addAbsText [] = .ok (p, 0) ∧
      patch_to_commit p [] = .ok c ∧
      apply_commit c.changes = [FsOp.write "/etc/x" "boom"] ∧
      isAbsolutePath "/etc/x" = true :=
  ⟨⟨[("/etc/x", absAddAction)]⟩,
   ⟨[("/etc/x", absAddChange)]⟩, rfl, rfl, rfl, rfl⟩

/-- C9 amended: the absolute-path check lives only in the default
write_file callback.  With the default filesystem callbacks, a commit
change that would write an absolute target stops the run with the
absolute-path DiffError instead of performing that write, and no write in
the default-callback trace of process_patch ever targets an absolute
path; with arbitrary injected callbacks, apply_commit hands every write
target, absolute or not, to the injected write callback unchecked. -/
theorem claim_C9 :
    (∀ changes p c, FsOp.write p c ∈ (apply_commit_fs changes).1 →
      isAbsolutePath p = false) ∧
    (∀ changes, (∃ pc ∈ changes, ∃ t ∈ writeTargets pc.1 pc.2,
        isAbsolutePath t = true) →
      (apply_commit_fs changes).2 = some DiffError.absolutePathRejected) ∧
    (∀ text fs p c, FsOp.write p c ∈ (process_patch text fs).1 →
      isAbsolutePath p = false) ∧
    (∀ changes pc, pc ∈ changes → ∀ t, t ∈ writeTargets pc.1 pc.2 →
      FsOp.write t (pc.2.new_content.getD "") ∈ apply_commit changes) := by
  refine ⟨apply_commit_fs_no_abs, apply_commit_fs_abs_err, ?_,
    apply_commit_mem_write⟩
  intro text fs p c h
  rcases process_patch_trace text fs with hemp | ⟨changes, heq⟩
  · rw [hemp] at h
    cases h
  · rw [heq] at h
    exact apply_commit_fs_no_abs changes p c h

/-- C9 witness: a default-callback run writes only the relative path
out.txt, a commit adding a file at an absolute path is stopped by the
rejection, and the unchecked injected-callback trace does contain the
absolute write. -/
theorem claim_C9_witness :
    isAbsolutePath "out.txt" = false ∧
    (apply_commit_fs [("/etc/x", absAddChange)]).2 =
      some DiffError.absolutePathRejected ∧
    FsOp.write "/etc/x" "boom" ∈ apply_commit [("/etc/x", absAddChange)] := by
  refine ⟨?_, ?_, ?_⟩
  · exact claim_C9.2.2.1 addRelText [] "out.txt" "hi"
      (by rw [show process_patch addRelText [] =
          ([FsOp.write "out.txt" "hi"], none) from rfl]; simp)
  · exact claim_C9.2.1 [("/etc/x", absAddChange)]
      ⟨("/etc/x", absAddChange), by simp,
       "/etc/x", by simp [writeTargets, absAddChange], by decide⟩
  · exact claim_C9.2.2.2 [("/etc/x", absAddChange)] ("/etc/x", absAddChange)
      (by simp) "/etc/x" (by simp [writeTargets, absAddChange])

/-! ## Hunk-header regex semantics (C6) -/

/-- A non-empty string of ASCII digits. -/
def digitsStr (s : String) : Prop :=
  s.data ≠ [] ∧ ∀ c ∈ s.data, c.isDigit = true

/-- Well-formedness of an optional count group: a space-or-comma
separator and a digit string. -/
def sepOk : Option (Char × String) → Prop
  | none => True
  | some (c, d) => (c = ' ' ∨ c = ',') ∧ digitsStr d

/-- The text an optional count group contributes to the header. -/
def optCountStr : Option (Char × String) → String
  | none => ""
  | some (c, d) => String.singleton c ++ d

/-- The character-list view of an optional count group. -/
def optCountData : Option (Char × String) → List Char
  | none => []
  | some (c, d) => c :: d.data

/-- The declarative reading of the hunk-header repair regex: the line is
exactly at-signs, minus, a digit string, an optional separator-plus-count
group, space, plus, a digit string, an optional group, space, at-signs. -/
def HunkHeaderForm (l S : String) (A : Option (Char × String)) (S2 : String)
    (B : Option (Char × String)) : Prop :=
  l = "@@ -" ++ S ++ optCountStr A ++ " +" ++ S2 ++ optCountStr B ++ " @@" ∧
  digitsStr S ∧ digitsStr S2 ∧ sepOk A ∧ sepOk B

theorem optCountStr_data (g : Option (Char × String)) :
    (optCountStr g).data = optCountData g := by
  rcases g with _ | ⟨c, d⟩ <;> rfl

theorem dropLit_nil (rest : List Char) : dropLit rest [] = some rest := by
  simp [dropLit]

theorem dropLit_append : ∀ (p r : List Char), dropLit (p ++ r) p = some r
  | [], r => by simp [dropLit]
  | c :: ps, r => by simp [dropLit, dropLit_append ps r]

theorem dropLit_sound : ∀ (p xs r : List Char), dropLit xs p = some r →
    xs = p ++ r := by
  intro p
  induction p with
  | nil =>
    intro xs r h
    simp only [dropLit, Option.some.injEq] at h
    simpa using h
  | cons c ps ih =>
    intro xs r h
    cases xs with
    | nil => simp [dropLit] at h
    | cons x rest =>
      simp only [dropLit] at h
      by_cases hx : x = c
      · rw [if_pos hx] at h
        rw [hx, ih rest r h]
        rfl
      · rw [if_neg hx] at h
        cases h

theorem dropWhile_head_not (p : Char → Bool) :
    ∀ (l : List Char) (c : Char), (l.dropWhile p).head? = some c →
      p c = false := by
  intro l
  induction l with
  | nil => intro c h; simp at h
  | cons x xs ih =>
    intro c h
    rw [List.dropWhile_cons] at h
    by_cases hx : p x = true
    · rw [if_pos hx] at h
      exact ih c h
    · rw [if_neg hx] at h
      simp only [List.head?_cons, Option.some.injEq] at h
      subst h
      simpa using hx

theorem spanDigits_append : ∀ (d rest : List Char),
    (∀ c ∈ d, c.isDigit = true) →
    (∀ c, rest.head? = some c → c.isDigit = false) →
    spanDigits (d ++ rest) = (d, rest) := by
  intro d
  induction d with
  | nil =>
    intro rest _ hr
    cases rest with
    | nil => rfl
    | cons c rs =>
      have hc := hr c rfl
      simp [spanDigits, List.takeWhile_cons, List.dropWhile_cons, hc]
  | cons x ds ih =>
    intro rest hd hr
    have hx : x.isDigit = true := hd x (List.mem_cons_self x ds)
    have hrec := ih rest (fun c hc => hd c (List.mem_cons_of_mem x hc)) hr
    have h1 : (ds ++ rest).takeWhile Char.isDigit = ds :=
      congrArg Prod.fst hrec
    have h2 : (ds ++ rest).dropWhile Char.isDigit = rest :=
      congrArg Prod.snd hrec
    simp [spanDigits, List.takeWhile_cons, List.dropWhile_cons, hx, h1, h2]

theorem spanDigits_eq (cs : List Char) :
    cs = (spanDigits cs).1 ++ (spanDigits cs).2 ∧
    ∀ c ∈ (spanDigits cs).1, c.isDigit = true :=
  ⟨(List.takeWhile_append_dropWhile Char.isDigit cs).symm,
   fun _ hc => List.mem_takeWhile_imp hc⟩

theorem optCG_plus_none (rest : List Char) :
    optCountGroup [' ', '+'] (' ' :: '+' :: rest) = some (none, rest) := by
  have h1 : spanDigits ('+' :: rest) = ([], '+' :: rest) := rfl
  have h2 : dropLit (' ' :: '+' :: rest) [' ', '+'] = some rest := by
    simp [dropLit]
  simp only [optCountGroup, h1]
  rw [if_pos (Or.inl trivial)]
  rw [if_neg (fun h => h rfl), h2]

theorem optCG_atat_none (rest : List Char) :
    optCountGroup [' ', '@', '@'] (' ' :: '@' :: '@' :: rest) =
      some (none, rest) := by
  have h1 : spanDigits ('@' :: '@' :: rest) = ([], '@' :: '@' :: rest) := rfl
  have h2 : dropLit (' ' :: '@' :: '@' :: rest) [' ', '@', '@'] = some rest := by
    simp [dropLit]
  simp only [optCountGroup, h1]
  rw [if_pos (Or.inl trivial)]
  rw [if_neg (fun h => h rfl), h2]

theorem optCG_plus_some (c : Char) (d : List Char) (rest : List Char)
    (hc : c = ' ' ∨ c = ',') (hd : d ≠ [])
    (hdig : ∀ x ∈ d, x.isDigit = true) :
    optCountGroup [' ', '+'] (c :: (d ++ (' ' :: '+' :: rest))) =
      some (some (c, ⟨d⟩), rest) := by
  have hspan := spanDigits_append d (' ' :: '+' :: rest) hdig
    (fun x hx => by
      simp only [List.head?_cons, Option.some.injEq] at hx
      subst hx
      decide)
  simp only [optCountGroup]
  rw [if_pos hc, hspan]
  dsimp only
  rw [if_pos hd,
    show (' ' :: '+' :: rest : List Char) = [' ', '+'] ++ rest from rfl,
    dropLit_append]

theorem optCG_atat_some (c : Char) (d : List Char) (rest : List Char)
    (hc : c = ' ' ∨ c = ',') (hd : d ≠ [])
    (hdig : ∀ x ∈ d, x.isDigit = true) :
    optCountGroup [' ', '@', '@'] (c :: (d ++ (' ' :: '@' :: '@' :: rest))) =
      some (some (c, ⟨d⟩), rest) := by
  have hspan := spanDigits_append d (' ' :: '@' :: '@' :: rest) hdig
    (fun x hx => by
      simp only [List.head?_cons, Option.some.injEq] at hx
      subst hx
      decide)
  simp only [optCountGroup]
  rw [if_pos hc, hspan]
  dsimp only
  rw [if_pos hd,
    show (' ' :: '@' :: '@' :: rest : List Char) = [' ', '@', '@'] ++ rest
      from rfl,
    dropLit_append]

theorem dropLitFallback (lit cs : List Char) (g : Option (Char × String))
    (r : List Char)
    (h : (match dropLit cs lit with
          | some r' => some ((none : Option (Char × String)), r')
          | none => none) = some (g, r)) :
    g = none ∧ cs = lit ++ r := by
  rcases hdl : dropLit cs lit with _ | r' <;> rw [hdl] at h
  · cases h
  · simp only [Option.some.injEq, Prod.mk.injEq] at h
    exact ⟨h.1.symm, h.2 ▸ dropLit_sound lit cs r' hdl⟩

theorem optCountGroup_sound (lit cs : List Char) (g : Option (Char × String))
    (r : List Char) (h : optCountGroup lit cs = some (g, r)) :
    cs = optCountData g ++ lit ++ r ∧ sepOk g := by
  rcases cs with _ | ⟨c, r2⟩
  · simp only [optCountGroup] at h
    rcases dropLitFallback lit [] g r h with ⟨hg, hcs⟩
    subst hg
    exact ⟨hcs, trivial⟩
  · simp only [optCountGroup] at h
    by_cases hc : c = ' ' ∨ c = ','
    · rw [if_pos hc] at h
      rcases hs : spanDigits r2 with ⟨d, r3⟩
      rw [hs] at h
      dsimp only at h
      have hsp := spanDigits_eq r2
      rw [hs] at hsp
      by_cases hdne : d ≠ []
      · rw [if_pos hdne] at h
        rcases hdl : dropLit r3 lit with _ | r4 <;> rw [hdl] at h
        · rcases dropLitFallback lit (c :: r2) g r h with ⟨hg, hcs⟩
          subst hg
          exact ⟨hcs, trivial⟩
        · simp only [Option.some.injEq, Prod.mk.injEq] at h
          rcases h with ⟨hg, hr⟩
          subst hg
          subst hr
          have h2 : r2 = d ++ r3 := by simpa using hsp.1
          have hdig : ∀ x ∈ d, x.isDigit = true := by simpa using hsp.2
          have hr3 := dropLit_sound lit r3 r4 hdl
          constructor
          · rw [h2, hr3]
            simp [optCountData, List.append_assoc]
          · exact ⟨hc, by simpa using hdne, by simpa using hdig⟩
      · rw [if_neg hdne] at h
        rcases dropLitFallback lit (c :: r2) g r h with ⟨hg, hcs⟩
        subst hg
        exact ⟨hcs, trivial⟩
    · rw [if_neg hc] at h
      rcases dropLitFallback lit (c :: r2) g r h with ⟨hg, hcs⟩
      subst hg
      exact ⟨hcs, trivial⟩

/-- Soundness of the hunk-header matcher: a successful parse exhibits the
line in the declarative regex form. -/
theorem matchHunkHeader_sound (l S : String) (A : Option (Char × String))
    (S2 : String) (B : Option (Char × String))
    (h : matchHunkHeader l = some (S, A, S2, B)) :
    HunkHeaderForm l S A S2 B := by
  simp only [matchHunkHeader] at h
  rcases h0 : dropLit l.data ['@', '@', ' ', '-'] with _ | r0 <;> rw [h0] at h
  · cases h
  · dsimp only at h
    rcases hs1 : spanDigits r0 with ⟨s1, r1⟩
    rw [hs1] at h
    dsimp only at h
    by_cases hs1e : s1 = []
    · rw [if_pos hs1e] at h; cases h
    · rw [if_neg hs1e] at h
      rcases hg1 : optCountGroup [' ', '+'] r1 with _ | g1r <;> rw [hg1] at h
      · cases h
      · rcases g1r with ⟨g1, r4⟩
        dsimp only at h
        rcases hs2 : spanDigits r4 with ⟨s2, r5⟩
        rw [hs2] at h
        dsimp only at h
        by_cases hs2e : s2 = []
        · rw [if_pos hs2e] at h; cases h
        · rw [if_neg hs2e] at h
          rcases hg2 : optCountGroup [' ', '@', '@'] r5 with _ | g2r <;>
            rw [hg2] at h
          · cases h
          · rcases g2r with ⟨g2, r8⟩
            dsimp only at h
            by_cases hr8 : r8 = []
            · rw [if_pos hr8] at h
              subst hr8
              simp only [Option.some.injEq, Prod.mk.injEq] at h
              obtain ⟨hS, hA, hS2, hB⟩ := h
              subst hS; subst hA; subst hS2; subst hB
              have hl : l.data = ['@', '@', ' ', '-'] ++ r0 :=
                dropLit_sound _ _ _ h0
              have hsp1 := spanDigits_eq r0
              rw [hs1] at hsp1
              have hr0 : r0 = s1 ++ r1 := by simpa using hsp1.1
              have hd1 : ∀ c ∈ s1, c.isDigit = true := by simpa using hsp1.2
              obtain ⟨hr1, hsep1⟩ := optCountGroup_sound _ _ _ _ hg1
              have hsp2 := spanDigits_eq r4
              rw [hs2] at hsp2
              have hr4 : r4 = s2 ++ r5 := by simpa using hsp2.1
              have hd2 : ∀ c ∈ s2, c.isDigit = true := by simpa using hsp2.2
              obtain ⟨hr5, hsep2⟩ := optCountGroup_sound _ _ _ _ hg2
              refine ⟨?_, ⟨hs1e, hd1⟩, ⟨hs2e, hd2⟩, hsep1, hsep2⟩
              apply String.ext
              rw [hl, hr0, hr1, hr4, hr5]
              simp [String.data_append, optCountStr_data, List.append_assoc]
            · rw [if_neg hr8] at h; cases h

/-- Completeness of the hunk-header matcher: every line of the declarative
regex form parses to its components. -/
theorem matchHunkHeader_complete (S : String) (A : Option (Char × String))
    (S2 : String) (B : Option (Char × String))
    (hS : digitsStr S) (hS2 : digitsStr S2) (hA : sepOk A) (hB : sepOk B) :
    matchHunkHeader
      ("@@ -" ++ S ++ optCountStr A ++ " +" ++ S2 ++ optCountStr B ++ " @@") =
      some (S, A, S2, B) := by
  have hdata : ("@@ -" ++ S ++ optCountStr A ++ " +" ++ S2 ++
      optCountStr B ++ " @@").data =
      ['@', '@', ' ', '-'] ++ (S.data ++ ((optCountStr A).data ++
        ([' ', '+'] ++ (S2.data ++ ((optCountStr B).data ++
          [' ', '@', '@']))))) := by
    simp [String.data_append, List.append_assoc]
  have hhead1 : ∀ c : Char,
      ((optCountStr A).data ++ ([' ', '+'] ++ (S2.data ++
        ((optCountStr B).data ++ [' ', '@', '@'])))).head? = some c →
      c.isDigit = false := by
    rcases A with _ | ⟨c0, d0⟩
    · intro c hc
      simp only [optCountStr, List.nil_append, List.cons_append,
        List.head?_cons, Option.some.injEq] at hc
      subst hc
      decide
    · intro c hc
      obtain ⟨hsep, _⟩ := hA
      simp only [show (optCountStr (some (c0, d0))).data = c0 :: d0.data
        from rfl, List.cons_append, List.head?_cons, Option.some.injEq] at hc
      subst hc
      rcases hsep with h | h <;> rw [h] <;> decide
  have hhead2 : ∀ c : Char,
      ((optCountStr B).data ++ [' ', '@', '@']).head? = some c →
      c.isDigit = false := by
    rcases B with _ | ⟨c1, d1⟩
    · intro c hc
      simp only [optCountStr, List.nil_append, List.head?_cons,
        Option.some.injEq] at hc
      subst hc
      decide
    · intro c hc
      obtain ⟨hsep, _⟩ := hB
      simp only [show (optCountStr (some (c1, d1))).data = c1 :: d1.data
        from rfl, List.cons_append, List.head?_cons, Option.some.injEq] at hc
      subst hc
      rcases hsep with h | h <;> rw [h] <;> decide
  simp only [matchHunkHeader, hdata, dropLit_append]
  rw [spanDigits_append S.data _ hS.2 hhead1]
  dsimp only
  rw [if_neg hS.1]
  rcases A with _ | ⟨c0, d0⟩
  · rw [show ((optCountStr none).data ++ ([' ', '+'] ++ (S2.data ++
        ((optCountStr B).data ++ [' ', '@', '@'])))) =
      ' ' :: '+' :: (S2.data ++ ((optCountStr B).data ++ [' ', '@', '@']))
      from rfl, optCG_plus_none]
    dsimp only
    rw [spanDigits_append S2.data _ hS2.2 hhead2]
    dsimp only
    rw [if_neg hS2.1]
    rcases B with _ | ⟨c1, d1⟩
    · rw [show ((optCountStr none).data ++ [' ', '@', '@']) =
        ' ' :: '@' :: '@' :: ([] : List Char) from rfl, optCG_atat_none]
      rfl
    · obtain ⟨hsep1, hd1⟩ := hB
      rw [show ((optCountStr (some (c1, d1))).data ++ [' ', '@', '@']) =
        c1 :: (d1.data ++ (' ' :: '@' :: '@' :: ([] : List Char))) from rfl,
        optCG_atat_some c1 d1.data [] hsep1 hd1.1 hd1.2]
      rfl
  · obtain ⟨hsep0, hd0⟩ := hA
    rw [show ((optCountStr (some (c0, d0))).data ++ ([' ', '+'] ++
        (S2.data ++ ((optCountStr B).data ++ [' ', '@', '@'])))) =
      c0 :: (d0.data ++ (' ' :: '+' :: (S2.data ++ ((optCountStr B).data ++
        [' ', '@', '@'])))) from rfl,
      optCG_plus_some c0 d0.data _ hsep0 hd0.1 hd0.2]
    dsimp only
    rw [spanDigits_append S2.data _ hS2.2 hhead2]
    dsimp only
    rw [if_neg hS2.1]
    rcases B with _ | ⟨c1, d1⟩
    · rw [show ((optCountStr none).data ++ [' ', '@', '@']) =
        ' ' :: '@' :: '@' :: ([] : List Char) from rfl, optCG_atat_none]
      rfl
    · obtain ⟨hsep1, hd1⟩ := hB
      rw [show ((optCountStr (some (c1, d1))).data ++ [' ', '@', '@']) =
        c1 :: (d1.data ++ (' ' :: '@' :: '@' :: ([] : List Char))) from rfl,
        optCG_atat_some c1 d1.data [] hsep1 hd1.1 hd1.2]
      rfl

/-- C6: repair_hunk_headers maps every line through the repair; a line of
the hunk-header regex form is rewritten to the canonical header with 0
substituted for each missing count, and every other line passes through
unchanged. -/
theorem claim_C6 :
    (∀ lines, repair_hunk_headers lines = lines.map repairLine) ∧
    (∀ l S A S2 B, HunkHeaderForm l S A S2 B →
      repairLine l =
        "@@ -" ++ S ++ "," ++ ((A.map fun g => g.2).getD "0") ++
        " +" ++ S2 ++ "," ++ ((B.map fun g => g.2).getD "0") ++ " @@") ∧
    (∀ l, (¬ ∃ S A S2 B, HunkHeaderForm l S A S2 B) → repairLine l = l) := by
  refine ⟨fun lines => rfl, ?_, ?_⟩
  · intro l S A S2 B hform
    obtain ⟨hl, hS, hS2, hA, hB⟩ := hform
    subst hl
    simp only [repairLine,
      matchHunkHeader_complete S A S2 B hS hS2 hA hB]
  · intro l hnone
    rcases hm : matchHunkHeader l with _ | t
    · simp only [repairLine, hm]
    · rcases t with ⟨S, A, S2, B⟩
      exact absurd ⟨S, A, S2, B, matchHunkHeader_sound l S A S2 B hm⟩ hnone

/-- C6 witness: the header with both counts missing is canonicalised with
zeros, and an ordinary context line passes through unchanged. -/
theorem claim_C6_witness :
    repairLine "@@ -3 +3 @@" = "@@ -3,0 +3,0 @@" ∧
    repairLine " context line" = " context line" := by
  constructor
  · have h := claim_C6.2.1 "@@ -3 +3 @@" "3" none "3" none
      ⟨by decide, ⟨by decide, by decide⟩, ⟨by decide, by decide⟩,
        trivial, trivial⟩
    exact h.trans (by decide)
  · apply claim_C6.2.2
    rintro ⟨S, A, S2, B, hl, _⟩
    have hd := congrArg (fun s : String => s.data.head?) hl
    exact absurd (show (some ' ' : Option Char) = some '@' from hd) (by decide)

end ApplyPatch
